import Mathlib

/-
Verification of the market_simulator core ledger engine.

The Python sources model money with decimal.Decimal at 28 significant
digits; we embed monetary values as exact rationals (ℚ).  Share
quantities are machine integers in the source (int), embedded as ℤ.
Per-symbol dictionaries become functions from String; the finite symbol
universe (all_symbols in simulation.py) is carried in a Config record.
-/

/-- Python Decimal floor-division truncates toward zero; int((a - f) // p)
in simulation.py therefore is truncation toward zero of the rational
quotient. -/
def truncToZero (x : ℚ) : ℤ := if 0 ≤ x then ⌊x⌋ else -⌊-x⌋

/-- Rounding of a rational to the nearest integer with ties going to the
even integer, matching decimal.ROUND_HALF_EVEN. -/
def roundHalfEvenInt (x : ℚ) : ℤ :=
  let f := ⌊x⌋
  let r := x - (f : ℚ)
  if r < 1/2 then f
  else if 1/2 < r then f + 1
  else if f % 2 = 0 then f else f + 1

/-- Embedding of q2 from simcore/ledger.py: quantize to two decimal
places with half-even rounding. -/
def q2 (x : ℚ) : ℚ := ((roundHalfEvenInt (100 * x) : ℚ)) / 100

/-- BROKER_FEE from config.py. -/
def BROKER_FEE : ℚ := 5

/-- TAX_RATE_DEFAULT from config.py. -/
def TAX_RATE_DEFAULT : ℚ := 26/100

/-- REINVESTMENT_THRESHOLD from config.py (the module constant used by
the reinvestment check in simulation.py line 154). -/
def REINVESTMENT_THRESHOLD : ℚ := 250

/-- One entry of the action trace (the strings appended to the per-day
actions list in run_simulation). -/
inductive TraceAction where
  | buy (sym : String) (qty : ℤ) (price : ℚ)
  | sell (sym : String) (qty : ℤ) (price gain : ℚ)
  | planBuy (sym : String) (qty : ℤ) (price : ℚ)
  | reinvest (sym : String) (qty : ℤ) (price : ℚ)
deriving DecidableEq

/-- Transaction kind column of transactions.csv. -/
inductive TxType where
  | buy
  | sell
deriving DecidableEq

/-- An ordinary transaction as consumed on its aligned trading day.
The price field is the resolved price (tx price if present, else that
day close); transactions whose symbol has no price that day are skipped
by the source (continue) and hence simply absent from the day list. -/
structure Tx where
  sym : String
  txType : TxType
  qty : ℤ
  price : ℚ
  fee : ℚ
deriving DecidableEq

/-- A plan installment scheduled on a trading day, with the day close
already resolved (installments without price data are skipped). -/
structure PlanTx where
  sym : String
  amount : ℚ
  fee : ℚ
  price : ℚ
deriving DecidableEq

/-- One trading day of input: calendar position plus the transactions
and plan installments aligned to it, and the price lookup used by the
reinvestment pass. -/
structure SimDay where
  year : ℕ
  month : ℕ
  dom : ℕ
  txs : List Tx
  plans : List PlanTx
  reinvestPrices : String → Option ℚ

/-- Run-level configuration: the sorted symbol universe, the
reinvestment queue (weights sorted by descending weight in the source),
and the per-target reinvestment fee lookup. -/
structure Config where
  symbols : List String
  targets : List (String × ℚ)
  reinvestFees : String → ℚ

/-- The mutable state of run_simulation.  The fields through triggered
mirror the local variables of simulation.py (monthly_stats is flattened
into running accumulators, which the claims treat additively).  The
fields contributedCash, investedCapital and deployedCash are
specification-only accumulators used to state cash conservation:
contributedCash sums external cash entering the system (ordinary buy
cash qty*price+fee and plan installment amounts), investedCapital sums
cash spent on share purchases including fees, deployedCash sums cash
withdrawn from the system (no operation in run_simulation withdraws
cash, so it stays zero).  The last four fields mirror the
dividend-output locals of run_simulation, which are initialized empty
and never written. -/
structure SimState where
  held : String → ℤ
  avgPrice : String → ℚ
  cashBuffers : String → ℚ
  dividendBuffers : String → ℚ
  realizedGains : String → ℚ
  contributions : ℚ
  fees : ℚ
  reinvested : ℚ
  statRealized : ℚ
  actions : List TraceAction
  currentMonth : Option ℕ
  triggered : Bool
  contributedCash : ℚ
  investedCapital : ℚ
  deployedCash : ℚ
  dividendTaxesPaid : ℚ
  grossDividends : List (String × ℚ)
  netDividends : List (String × ℚ)
  monthlyDividendsBySymbol : List (String × List (String × ℚ))

/-- Initial state of run_simulation (lines 71 to 86): all holdings zero,
all buffers zero, no trace, no month seen, trigger flag clear. -/
def initState : SimState where
  held := fun _ => 0
  avgPrice := fun _ => 0
  cashBuffers := fun _ => 0
  dividendBuffers := fun _ => 0
  realizedGains := fun _ => 0
  contributions := 0
  fees := 0
  reinvested := 0
  statRealized := 0
  actions := []
  currentMonth := none
  triggered := false
  contributedCash := 0
  investedCapital := 0
  deployedCash := 0
  dividendTaxesPaid := 0
  grossDividends := []
  netDividends := []
  monthlyDividendsBySymbol := []

/-- Processing of one ordinary transaction (simulation.py lines 109 to
125).  A buy always executes; a sell executes only when the held
quantity is at least the requested quantity, and otherwise the state is
returned untouched (the source has no else branch). -/
def applyTx (st : SimState) (tx : Tx) : SimState :=
  match tx.txType with
  | .buy =>
    let heldBefore := st.held tx.sym
    let heldAfter := heldBefore + tx.qty
    let newAvg :=
      if 0 < heldAfter then
        (st.avgPrice tx.sym * (heldBefore : ℚ) + tx.price * (tx.qty : ℚ)) / (heldAfter : ℚ)
      else tx.price
    { st with
      held := Function.update st.held tx.sym heldAfter
      avgPrice := Function.update st.avgPrice tx.sym newAvg
      contributions := st.contributions + (tx.qty : ℚ) * tx.price
      fees := st.fees + tx.fee
      actions := st.actions ++ [.buy tx.sym tx.qty tx.price]
      contributedCash := st.contributedCash + ((tx.qty : ℚ) * tx.price + tx.fee)
      investedCapital := st.investedCapital + ((tx.qty : ℚ) * tx.price + tx.fee) }
  | .sell =>
    if tx.qty ≤ st.held tx.sym then
      let proceeds := tx.price * (tx.qty : ℚ)
      let costBasis := st.avgPrice tx.sym * (tx.qty : ℚ)
      let gain := proceeds - costBasis
      { st with
        realizedGains := Function.update st.realizedGains tx.sym (st.realizedGains tx.sym + gain)
        statRealized := st.statRealized + gain
        held := Function.update st.held tx.sym (st.held tx.sym - tx.qty)
        fees := st.fees + tx.fee
        actions := st.actions ++ [.sell tx.sym tx.qty tx.price gain] }
    else st

/-- Processing of one plan installment (simulation.py lines 127 to 144):
qty = int((amount - fee) // price); the buy executes only when qty > 0,
and the leftover amount - qty*price - fee is added to the symbol cash
buffer. -/
def applyPlan (st : SimState) (p : PlanTx) : SimState :=
  let qty : ℤ := truncToZero ((p.amount - p.fee) / p.price)
  let leftover := p.amount - (qty : ℚ) * p.price - p.fee
  if 0 < qty then
    let heldBefore := st.held p.sym
    let heldAfter := heldBefore + qty
    let newAvg :=
      if 0 < heldAfter then
        (st.avgPrice p.sym * (heldBefore : ℚ) + p.price * (qty : ℚ)) / (heldAfter : ℚ)
      else p.price
    { st with
      held := Function.update st.held p.sym heldAfter
      avgPrice := Function.update st.avgPrice p.sym newAvg
      contributions := st.contributions + (qty : ℚ) * p.price
      fees := st.fees + p.fee
      cashBuffers := Function.update st.cashBuffers p.sym (st.cashBuffers p.sym + leftover)
      actions := st.actions ++ [.planBuy p.sym qty p.price]
      contributedCash := st.contributedCash + p.amount
      investedCapital := st.investedCapital + ((qty : ℚ) * p.price + p.fee) }
  else st

/-- One target of the reinvestment loop (simulation.py lines 156 to
171).  The accumulator carries the running state together with the
remaining pooled total, which is decremented by the cost of each
executed purchase; the target cash buffer is overwritten (assignment,
not increment) with the allocation remainder. -/
def reinvestStep (prices : String → Option ℚ) (rfees : String → ℚ) :
    SimState × ℚ → String × ℚ → SimState × ℚ :=
  fun acc t =>
    match prices t.1 with
    | none => acc
    | some price =>
      let st := acc.1
      let total := acc.2
      let tgt := t.1
      let fee := rfees tgt
      let alloc := total * t.2
      let qty : ℤ := truncToZero ((alloc - fee) / price)
      let cost := (qty : ℚ) * price + fee
      if 0 < qty ∧ cost < alloc then
        let heldBefore := st.held tgt
        let heldAfter := heldBefore + qty
        let newAvg :=
          if 0 < heldAfter then
            (st.avgPrice tgt * (heldBefore : ℚ) + price * (qty : ℚ)) / (heldAfter : ℚ)
          else price
        ({ st with
           held := Function.update st.held tgt heldAfter
           avgPrice := Function.update st.avgPrice tgt newAvg
           reinvested := st.reinvested + cost
           fees := st.fees + fee
           cashBuffers := Function.update st.cashBuffers tgt (alloc - cost)
           actions := st.actions ++ [.reinvest tgt qty price]
           investedCapital := st.investedCapital + cost }, total - cost)
      else acc

/-- The pooled total of simulation.py line 153: the sum over all symbols
of dividend_buffer + cash_buffer. -/
def pooledTotal (cfg : Config) (st : SimState) : ℚ :=
  (cfg.symbols.map (fun s => st.dividendBuffers s + st.cashBuffers s)).sum

/-- The reinvestment pass body (simulation.py lines 153 to 172): when
the pooled total meets REINVESTMENT_THRESHOLD, walk the target queue and
then reset every dividend buffer to zero; otherwise do nothing. -/
def reinvestPass (cfg : Config) (prices : String → Option ℚ) (st : SimState) : SimState :=
  let total := pooledTotal cfg st
  if REINVESTMENT_THRESHOLD ≤ total then
    let st2 := (cfg.targets.foldl (reinvestStep prices cfg.reinvestFees) (st, total)).1
    { st2 with dividendBuffers := fun _ => 0 }
  else st

/-- One iteration of the trading-day loop (simulation.py lines 88 to
172, with ENABLE_MONTHLY_REINVESTMENT = True as in config.py): ordinary
transactions, then plan installments, then the month-rollover /
trigger-flag logic guarding the reinvestment pass.  The source compares
only day.month against the remembered month number. -/
def processDay (cfg : Config) (st : SimState) (d : SimDay) : SimState :=
  let st1 := d.txs.foldl applyTx st
  let st2 := d.plans.foldl applyPlan st1
  let st3 :=
    if st2.currentMonth ≠ some d.month then
      { st2 with currentMonth := some d.month, triggered := false }
    else st2
  if st3.triggered = false ∧ 11 < d.dom then
    reinvestPass cfg d.reinvestPrices { st3 with triggered := true }
  else st3

/-- The whole day loop from a given state. -/
def runDays (cfg : Config) (st : SimState) (days : List SimDay) : SimState :=
  days.foldl (processDay cfg) st

/-- run_simulation from simulation.py restricted to its ledger effect.
Line 25 of the source converts the reinvestment_threshold parameter (or
the config default) to Decimal, but the converted value is never read
again: the loop compares against the module constant
REINVESTMENT_THRESHOLD (line 154). -/
def run_simulation (reinvestment_threshold : Option ℚ) (cfg : Config)
    (days : List SimDay) : SimState :=
  let _resolved := reinvestment_threshold.getD REINVESTMENT_THRESHOLD
  runDays cfg initState days

/-- Number of reinvestment purchases recorded in the action trace. -/
def TraceAction.isReinvest : TraceAction → Bool
  | .reinvest _ _ _ => true
  | _ => false

/-- Count of reinvestment purchase actions in a state trace. -/
def reinvestCount (st : SimState) : ℕ := st.actions.countP TraceAction.isReinvest

/-- DividendEvent from simcore/ledger.py with the date kept as its ISO
string; derived fields start unset. -/
structure DividendEvent where
  date : String
  symbol : String
  qty : ℚ
  dividend_per_share_gross : ℚ
  currency : String
  fx_to_base : ℚ
  withholding_rate : ℚ
  domestic_tax_rate : ℚ
  broker_fee : ℚ
  dividend_gross : Option ℚ := none
  withholding_tax : Option ℚ := none
  domestic_tax : Option ℚ := none
  dividend_net : Option ℚ := none
  notes : String := ""
deriving DecidableEq

/-- DividendsLedger from simcore/ledger.py: base currency plus the
recorded event list. -/
structure DividendsLedger where
  base_currency : String := "EUR"
  events : List DividendEvent := []
deriving DecidableEq

/-- DividendsLedger.record: append a pending event built from the raw
arguments. -/
def DividendsLedger.record (l : DividendsLedger) (date symbol : String) (qty dps : ℚ)
    (currency : String) (fx wh dom bfee : ℚ) (notes : String) : DividendsLedger :=
  { l with events := l.events ++ [{
      date := date, symbol := symbol, qty := qty,
      dividend_per_share_gross := dps, currency := currency,
      fx_to_base := fx, withholding_rate := wh, domestic_tax_rate := dom,
      broker_fee := bfee, notes := notes }] }

/-- The per-event body of DividendsLedger.finalize (lines 60 to 76):
derived fields are computed from the current base fields and stored
rounded to two decimals, and the base fields themselves are also
rounded in place. -/
def finalizeEvent (ev : DividendEvent) : DividendEvent :=
  let gross_local := ev.qty * ev.dividend_per_share_gross
  let gross_base := gross_local * ev.fx_to_base
  let wh := gross_base * ev.withholding_rate
  let dom := (gross_base - wh) * ev.domestic_tax_rate
  let net := gross_base - wh - dom - ev.broker_fee
  { ev with
    dividend_gross := some (q2 gross_base)
    withholding_tax := some (q2 wh)
    domestic_tax := some (q2 dom)
    dividend_net := some (q2 net)
    fx_to_base := q2 ev.fx_to_base
    dividend_per_share_gross := q2 ev.dividend_per_share_gross
    qty := q2 ev.qty
    broker_fee := q2 ev.broker_fee
    withholding_rate := q2 ev.withholding_rate
    domestic_tax_rate := q2 ev.domestic_tax_rate }

/-- DividendsLedger.finalize: recompute and store derived fields for
every recorded event (the source mutates the list in place and returns
it). -/
def DividendsLedger.finalize (l : DividendsLedger) : DividendsLedger :=
  { l with events := l.events.map finalizeEvent }

/-- The capital-gain block of write_kpis_to_file (kpi_exporter.py lines
103 to 107): total gain is realized plus unrealized. -/
def capitalGain (realized unrealized : ℚ) : ℚ := realized + unrealized

/-- kpi_exporter.py line 106: the hypothetical tax is the plain product
of the total gain with the flat default rate. -/
def capitalGainTax (gain : ℚ) : ℚ := gain * TAX_RATE_DEFAULT

/-- kpi_exporter.py line 107. -/
def netCapitalGain (gain : ℚ) : ℚ := gain - capitalGainTax gain

/-- Generic preservation of an invariant along a left fold. -/
theorem foldl_invariant {α β : Type _} (P : α → Prop) (f : α → β → α) (l : List β)
    (h : ∀ a b, b ∈ l → P a → P (f a b)) (a : α) (ha : P a) : P (l.foldl f a) := by
  induction l generalizing a with
  | nil => exact ha
  | cons x t ih =>
    exact ih (fun a b hb hb2 => h a b (List.mem_cons_of_mem _ hb) hb2) _
      (h a x (List.mem_cons_self _ _) ha)

/-- C10: the reinvestment_threshold parameter of run_simulation is
converted on entry (source line 25) but never read afterwards; the
reinvestment trigger compares against the module constant
REINVESTMENT_THRESHOLD, so any two calls differing only in that
parameter produce identical results. -/
theorem run_simulation_ignores_threshold_parameter (t1 t2 : Option ℚ) (cfg : Config)
    (days : List SimDay) : run_simulation t1 cfg days = run_simulation t2 cfg days := rfl

/-- Counterexample to C8: at total gain -100 the reported tax is -26,
not max(-100, 0) × rate = 0, and in particular it is negative. -/
theorem capitalGainTax_negative_cex :
    capitalGain (-100) 0 = -100 ∧
    capitalGainTax (capitalGain (-100) 0) = -26 ∧
    capitalGainTax (capitalGain (-100) 0) ≠ max (capitalGain (-100) 0) 0 * TAX_RATE_DEFAULT ∧
    capitalGainTax (capitalGain (-100) 0) < 0 := by
  refine ⟨by norm_num [capitalGain], by norm_num [capitalGain, capitalGainTax, TAX_RATE_DEFAULT],
    ?_, by norm_num [capitalGain, capitalGainTax, TAX_RATE_DEFAULT]⟩
  have hmax : max (capitalGain (-100) 0) 0 = (0 : ℚ) := by
    rw [max_eq_right]
    norm_num [capitalGain]
  rw [hmax]
  norm_num [capitalGain, capitalGainTax, TAX_RATE_DEFAULT]

/-- C8 amended: the reported hypothetical capital gains tax is the plain
product (realized + unrealized) × TAX_RATE_DEFAULT with no clamping at
zero (it is negative whenever the total gain is negative), the reported
net-of-tax gain equals total gain minus that tax, and the max-clamped
formula of the claim agrees with the code only when the total gain is
non-negative. -/
theorem capitalGainTax_formula (r u : ℚ) :
    capitalGainTax (capitalGain r u) = (r + u) * TAX_RATE_DEFAULT ∧
    netCapitalGain (capitalGain r u) = (r + u) - (r + u) * TAX_RATE_DEFAULT ∧
    (0 ≤ r + u → capitalGainTax (capitalGain r u) = max (r + u) 0 * TAX_RATE_DEFAULT) := by
  refine ⟨rfl, rfl, fun h => ?_⟩
  rw [max_eq_left h]
  rfl

/-- Witness for capitalGainTax_formula at gain 7 + 3. -/
theorem capitalGainTax_formula_witness :
    (0 : ℚ) ≤ 7 + 3 ∧
    capitalGainTax (capitalGain 7 3) = max ((7 : ℚ) + 3) 0 * TAX_RATE_DEFAULT :=
  ⟨by norm_num, (capitalGainTax_formula 7 3).2.2 (by norm_num)⟩

/-- A dividend event whose quantity has more than two decimal places;
finalize rounds the base fields in place, so a second finalize
recomputes the derived fields from different inputs. -/
def evFractionalQty : DividendEvent :=
  { date := "2025-01-01", symbol := "X", qty := 1005/1000,
    dividend_per_share_gross := 3, currency := "EUR", fx_to_base := 1,
    withholding_rate := 0, domestic_tax_rate := 0, broker_fee := 0 }

/-- A ledger holding only evFractionalQty. -/
def ledgerFractional : DividendsLedger := { events := [evFractionalQty] }

/-- C7 (code bug): finalize is not idempotent.  On a ledger holding one
event with qty = 1.005, dps_gross = 3, fx = 1, zero rates and fee, the
first finalize stores dividend_gross = 3.02 (half-even rounding of
3.015) and rounds qty down to 1.00 in place; the second finalize (which
to_csv performs on every call) recomputes dividend_gross = 3.00 from the
rounded bases, changing a derived field. -/
theorem finalize_not_idempotent :
    ((ledgerFractional.finalize).events.map DividendEvent.dividend_gross = [some (302/100)]) ∧
    ((ledgerFractional.finalize.finalize).events.map DividendEvent.dividend_gross = [some 3]) ∧
    ledgerFractional.finalize.finalize ≠ ledgerFractional.finalize := by
  have h1 : (ledgerFractional.finalize).events.map DividendEvent.dividend_gross
      = [some (302/100)] := by
    norm_num [DividendsLedger.finalize, ledgerFractional, finalizeEvent,
      evFractionalQty, q2, roundHalfEvenInt]
  have h2 : (ledgerFractional.finalize.finalize).events.map DividendEvent.dividend_gross
      = [some 3] := by
    norm_num [DividendsLedger.finalize, ledgerFractional, finalizeEvent,
      evFractionalQty, q2, roundHalfEvenInt]
  refine ⟨h1, h2, fun h => ?_⟩
  rw [h, h1] at h2
  norm_num at h2

/-- C4: for every recorded event, finalize stores the derived fields as
the exact formulas of the claim, each rounded to two decimals half-even:
gross = qty × dps × fx, withholding = gross × withholding_rate, domestic
= (gross − withholding) × domestic_tax_rate, net = gross − withholding −
domestic − broker_fee, all from the unrounded intermediate values. -/
theorem finalize_formulas (l : DividendsLedger) (ev : DividendEvent)
    (h : ev ∈ l.events) :
    finalizeEvent ev ∈ (l.finalize).events ∧
    (finalizeEvent ev).dividend_gross
      = some (q2 (ev.qty * ev.dividend_per_share_gross * ev.fx_to_base)) ∧
    (finalizeEvent ev).withholding_tax
      = some (q2 (ev.qty * ev.dividend_per_share_gross * ev.fx_to_base
          * ev.withholding_rate)) ∧
    (finalizeEvent ev).domestic_tax
      = some (q2 ((ev.qty * ev.dividend_per_share_gross * ev.fx_to_base
          - ev.qty * ev.dividend_per_share_gross * ev.fx_to_base * ev.withholding_rate)
          * ev.domestic_tax_rate)) ∧
    (finalizeEvent ev).dividend_net
      = some (q2 (ev.qty * ev.dividend_per_share_gross * ev.fx_to_base
          - ev.qty * ev.dividend_per_share_gross * ev.fx_to_base * ev.withholding_rate
          - (ev.qty * ev.dividend_per_share_gross * ev.fx_to_base
             - ev.qty * ev.dividend_per_share_gross * ev.fx_to_base * ev.withholding_rate)
            * ev.domestic_tax_rate
          - ev.broker_fee)) := by
  refine ⟨?_, rfl, rfl, rfl, rfl⟩
  exact List.mem_map_of_mem finalizeEvent h

/-- The dividend event of spec scenario B: qty 10, dps 1, fx 1,
withholding 15 percent, domestic 10 percent, no fee. -/
def evScenarioB : DividendEvent :=
  { date := "2025-03-01", symbol := "Y", qty := 10,
    dividend_per_share_gross := 1, currency := "EUR", fx_to_base := 1,
    withholding_rate := 15/100, domestic_tax_rate := 10/100, broker_fee := 0 }

/-- A ledger holding only evScenarioB. -/
def ledgerScenarioB : DividendsLedger := { events := [evScenarioB] }

/-- Witness for finalize_formulas on scenario B, checking the net
formula yields 7.65. -/
theorem finalize_formulas_witness :
    evScenarioB ∈ ledgerScenarioB.events ∧
    (finalizeEvent evScenarioB).dividend_net
      = some (q2 (evScenarioB.qty * evScenarioB.dividend_per_share_gross
          * evScenarioB.fx_to_base
          - evScenarioB.qty * evScenarioB.dividend_per_share_gross
            * evScenarioB.fx_to_base * evScenarioB.withholding_rate
          - (evScenarioB.qty * evScenarioB.dividend_per_share_gross
              * evScenarioB.fx_to_base
             - evScenarioB.qty * evScenarioB.dividend_per_share_gross
               * evScenarioB.fx_to_base * evScenarioB.withholding_rate)
            * evScenarioB.domestic_tax_rate
          - evScenarioB.broker_fee)) ∧
    (finalizeEvent evScenarioB).dividend_net = some (765/100) :=
  ⟨by simp [ledgerScenarioB],
   (finalize_formulas ledgerScenarioB evScenarioB (by simp [ledgerScenarioB])).2.2.2.2,
   by norm_num [finalizeEvent, evScenarioB, q2, roundHalfEvenInt]⟩

/-- C3: a buy of qty q at price p moves the average cost of the bought
symbol to (A·Q + p·q) / (Q + q) whenever Q + q > 0, where Q and A are
the prior quantity and prior average cost; and no sell ever changes any
symbol average cost. -/
theorem buy_weighted_average_cost :
    (∀ (st : SimState) (tx : Tx), tx.txType = TxType.buy →
        0 < st.held tx.sym + tx.qty →
        (applyTx st tx).avgPrice tx.sym
          = (st.avgPrice tx.sym * (st.held tx.sym : ℚ) + tx.price * (tx.qty : ℚ))
              / ((st.held tx.sym + tx.qty : ℤ) : ℚ)) ∧
    (∀ (st : SimState) (tx : Tx) (s : String), tx.txType = TxType.sell →
        (applyTx st tx).avgPrice s = st.avgPrice s) := by
  constructor
  · intro st tx hty hpos
    obtain ⟨sym, ty, qty, price, fee⟩ := tx
    cases hty
    simp only [applyTx, Function.update_same]
    rw [if_pos hpos]
  · intro st tx s hty
    obtain ⟨sym, ty, qty, price, fee⟩ := tx
    cases hty
    simp only [applyTx]
    split <;> rfl

/-- A position of 3 shares at average cost 10 for symbol A. -/
def exAvgState : SimState := { initState with
  held := Function.update initState.held "A" 3
  avgPrice := Function.update initState.avgPrice "A" 10 }

/-- A buy of 2 shares of A at 16 with fee 5. -/
def exBuyTx : Tx := { sym := "A", txType := TxType.buy, qty := 2, price := 16, fee := 5 }

/-- Witness for buy_weighted_average_cost: buying 2 at 16 onto 3 at 10
gives average (10·3 + 16·2) / 5. -/
theorem buy_weighted_average_cost_witness :
    exBuyTx.txType = TxType.buy ∧ 0 < exAvgState.held "A" + exBuyTx.qty ∧
    (applyTx exAvgState exBuyTx).avgPrice "A"
      = (exAvgState.avgPrice "A" * (exAvgState.held "A" : ℚ)
          + exBuyTx.price * (exBuyTx.qty : ℚ))
          / ((exAvgState.held "A" + exBuyTx.qty : ℤ) : ℚ) :=
  ⟨rfl, by norm_num [exAvgState, exBuyTx, initState],
   buy_weighted_average_cost.1 exAvgState exBuyTx rfl
     (by norm_num [exAvgState, exBuyTx, initState])⟩

/-- A position of 1 share of A at average cost 10. -/
def exSellState : SimState := { initState with
  held := Function.update initState.held "A" 1
  avgPrice := Function.update initState.avgPrice "A" 10 }

/-- A sell of 2 shares of A, more than the 1 held. -/
def exRejectedSell : Tx := { sym := "A", txType := TxType.sell, qty := 2, price := 12, fee := 1 }

/-- Counterexample to C2 as stated: a sell exceeding the held quantity
leaves the entire state unchanged, including the action trace, so the
rejection is not logged or recorded anywhere (the source has no else
branch for the insufficient case). -/
theorem sell_rejection_silent_cex :
    exSellState.held "A" < exRejectedSell.qty ∧
    applyTx exSellState exRejectedSell = exSellState ∧
    (applyTx exSellState exRejectedSell).actions = exSellState.actions :=
  ⟨by norm_num [exSellState, exRejectedSell, initState], rfl, rfl⟩

/-- C2 amended: a sell whose requested quantity exceeds the held
quantity leaves the whole ledger state unchanged (and is silent: not
even the action trace records it); a sell with sufficient holdings adds
qty × (price − average_cost) to realized gain, decreases the quantity by
qty, records the fee, appends a sell action, and changes neither the
average cost nor the buffers nor the contributions. -/
theorem sell_semantics :
    (∀ (st : SimState) (tx : Tx), tx.txType = TxType.sell →
        st.held tx.sym < tx.qty → applyTx st tx = st) ∧
    (∀ (st : SimState) (tx : Tx), tx.txType = TxType.sell →
        tx.qty ≤ st.held tx.sym →
        (applyTx st tx).realizedGains tx.sym
            = st.realizedGains tx.sym + (tx.qty : ℚ) * (tx.price - st.avgPrice tx.sym) ∧
        (applyTx st tx).held tx.sym = st.held tx.sym - tx.qty ∧
        (applyTx st tx).fees = st.fees + tx.fee ∧
        (applyTx st tx).statRealized
            = st.statRealized + (tx.qty : ℚ) * (tx.price - st.avgPrice tx.sym) ∧
        (applyTx st tx).avgPrice = st.avgPrice ∧
        (applyTx st tx).cashBuffers = st.cashBuffers ∧
        (applyTx st tx).dividendBuffers = st.dividendBuffers ∧
        (applyTx st tx).contributions = st.contributions ∧
        (applyTx st tx).actions = st.actions
            ++ [TraceAction.sell tx.sym tx.qty tx.price
                  (tx.price * (tx.qty : ℚ) - st.avgPrice tx.sym * (tx.qty : ℚ))]) := by
  constructor
  · intro st tx hty hlt
    obtain ⟨sym, ty, qty, price, fee⟩ := tx
    cases hty
    simp only [applyTx]
    rw [if_neg (not_le.mpr hlt)]
  · intro st tx hty hge
    obtain ⟨sym, ty, qty, price, fee⟩ := tx
    cases hty
    simp only [applyTx]
    rw [if_pos hge]
    refine ⟨?_, ?_, rfl, ?_, rfl, rfl, rfl, rfl, rfl⟩
    · simp only [Function.update_same]
      ring
    · simp only [Function.update_same]
    · ring

/-- A position of 5 shares of B at average cost 10. -/
def exSellState5 : SimState := { initState with
  held := Function.update initState.held "B" 5
  avgPrice := Function.update initState.avgPrice "B" 10 }

/-- A sell of 2 shares of B at 12 with fee 1, within holdings. -/
def exSellTx : Tx := { sym := "B", txType := TxType.sell, qty := 2, price := 12, fee := 1 }

/-- Witness for sell_semantics: the sufficient-holdings branch applies
at 5 held, 2 sold. -/
theorem sell_semantics_witness :
    exSellTx.txType = TxType.sell ∧ exSellTx.qty ≤ exSellState5.held "B" ∧
    (applyTx exSellState5 exSellTx).held "B" = exSellState5.held "B" - exSellTx.qty :=
  ⟨rfl, by norm_num [exSellState5, exSellTx, initState],
   (sell_semantics.2 exSellState5 exSellTx rfl
      (by norm_num [exSellState5, exSellTx, initState])).2.1⟩

/-- Non-negativity of all holdings. -/
def heldNonneg (st : SimState) : Prop := ∀ s, 0 ≤ st.held s

theorem applyTx_heldNonneg (st : SimState) (tx : Tx) (hq : 0 ≤ tx.qty)
    (h : heldNonneg st) : heldNonneg (applyTx st tx) := by
  intro s
  obtain ⟨sym, ty, qty, price, fee⟩ := tx
  have hq2 : (0 : ℤ) ≤ qty := hq
  cases ty with
  | buy =>
    simp only [applyTx]
    by_cases hs : s = sym
    · subst hs
      simp only [Function.update_same]
      have h1 := h s
      omega
    · simp only [Function.update_noteq hs]
      exact h s
  | sell =>
    simp only [applyTx]
    split
    · next hle =>
      by_cases hs : s = sym
      · subst hs
        simp only [Function.update_same]
        have h1 := h s
        omega
      · simp only [Function.update_noteq hs]
        exact h s
    · exact h s

theorem applyPlan_heldNonneg (st : SimState) (p : PlanTx)
    (h : heldNonneg st) : heldNonneg (applyPlan st p) := by
  intro s
  simp only [applyPlan]
  split
  · next hq =>
    by_cases hs : s = p.sym
    · subst hs
      simp only [Function.update_same]
      have h1 := h p.sym
      omega
    · simp only [Function.update_noteq hs]
      exact h s
  · exact h s

theorem reinvestStep_heldNonneg (prices : String → Option ℚ) (rfees : String → ℚ)
    (acc : SimState × ℚ) (t : String × ℚ) (h : heldNonneg acc.1) :
    heldNonneg (reinvestStep prices rfees acc t).1 := by
  intro s
  rcases hp : prices t.1 with _ | price
  · simp only [reinvestStep, hp]
    exact h s
  · simp only [reinvestStep, hp]
    split
    · next hc =>
      by_cases hs : s = t.1
      · subst hs
        simp only [Function.update_same]
        have h1 := h t.1
        have h2 := hc.1
        omega
      · simp only [Function.update_noteq hs]
        exact h s
    · exact h s

theorem reinvestPass_heldNonneg (cfg : Config) (prices : String → Option ℚ)
    (st : SimState) (h : heldNonneg st) : heldNonneg (reinvestPass cfg prices st) := by
  simp only [reinvestPass]
  split
  · have hfold : heldNonneg
        (cfg.targets.foldl (reinvestStep prices cfg.reinvestFees)
          (st, pooledTotal cfg st)).1 :=
      foldl_invariant (fun a => heldNonneg a.1) (reinvestStep prices cfg.reinvestFees)
        cfg.targets (fun a b _ hp => reinvestStep_heldNonneg prices cfg.reinvestFees a b hp)
        (st, pooledTotal cfg st) h
    exact fun s => hfold s
  · exact h

theorem processDay_heldNonneg (cfg : Config) (st : SimState) (d : SimDay)
    (hq : ∀ tx ∈ d.txs, 0 ≤ tx.qty) (h : heldNonneg st) :
    heldNonneg (processDay cfg st d) := by
  have h1 : heldNonneg (d.txs.foldl applyTx st) :=
    foldl_invariant heldNonneg applyTx d.txs
      (fun a b hb hp => applyTx_heldNonneg a b (hq b hb) hp) st h
  have h2 : heldNonneg (d.plans.foldl applyPlan (d.txs.foldl applyTx st)) :=
    foldl_invariant heldNonneg applyPlan d.plans
      (fun a b _ hp => applyPlan_heldNonneg a b hp) _ h1
  simp only [processDay]
  split <;> split <;>
    first
      | exact reinvestPass_heldNonneg cfg d.reinvestPrices _ (fun s => h2 s)
      | exact fun s => h2 s

/-- C1: every operation of run_simulation preserves non-negativity of
every symbol holding, provided every input transaction quantity is a
positive integer (positivity is only needed for ordinary buys; sells are
guarded, and plan and reinvestment buys only execute with computed qty >
0); consequently every prefix of a run from the initial state keeps all
quantities at or above zero. -/
theorem quantity_nonneg_invariant :
    (∀ (st : SimState) (tx : Tx), 0 ≤ tx.qty → heldNonneg st →
        heldNonneg (applyTx st tx)) ∧
    (∀ (st : SimState) (p : PlanTx), heldNonneg st → heldNonneg (applyPlan st p)) ∧
    (∀ (prices : String → Option ℚ) (rfees : String → ℚ) (acc : SimState × ℚ)
        (t : String × ℚ), heldNonneg acc.1 →
        heldNonneg (reinvestStep prices rfees acc t).1) ∧
    (∀ (cfg : Config) (prices : String → Option ℚ) (st : SimState),
        heldNonneg st → heldNonneg (reinvestPass cfg prices st)) ∧
    (∀ (cfg : Config) (days : List SimDay),
        (∀ d ∈ days, ∀ tx ∈ d.txs, 0 < tx.qty) →
        ∀ (k : ℕ) (s : String), 0 ≤ (runDays cfg initState (days.take k)).held s) := by
  refine ⟨applyTx_heldNonneg, applyPlan_heldNonneg, reinvestStep_heldNonneg,
    reinvestPass_heldNonneg, ?_⟩
  intro cfg days hq k s
  refine foldl_invariant heldNonneg (processDay cfg) (days.take k) ?_ initState
    (fun _ => le_refl 0) s
  intro a b hb hp
  exact processDay_heldNonneg cfg a b
    (fun tx htx => le_of_lt (hq b (List.take_subset k days hb) tx htx)) hp

/-- A one-symbol configuration with no reinvestment targets. -/
def exCfg : Config := { symbols := ["A"], targets := [], reinvestFees := fun _ => BROKER_FEE }

/-- A single trading day with one buy of 3 shares of A at 10. -/
def exDayBuy : SimDay :=
  { year := 2025, month := 7, dom := 3,
    txs := [{ sym := "A", txType := TxType.buy, qty := 3, price := 10, fee := 5 }],
    plans := [], reinvestPrices := fun _ => none }

/-- Witness for quantity_nonneg_invariant on a one-day, one-buy run. -/
theorem quantity_nonneg_invariant_witness :
    (∀ d ∈ [exDayBuy], ∀ tx ∈ d.txs, 0 < tx.qty) ∧
    0 ≤ (runDays exCfg initState ([exDayBuy].take 1)).held "A" :=
  ⟨by simp [exDayBuy],
   quantity_nonneg_invariant.2.2.2.2 exCfg [exDayBuy] (by simp [exDayBuy]) 1 "A"⟩

/-- Absence of any dividend activity: all dividend buffers zero and all
dividend outputs empty. -/
def noDividendActivity (st : SimState) : Prop :=
  (∀ s, st.dividendBuffers s = 0) ∧ st.dividendTaxesPaid = 0 ∧
    st.grossDividends = [] ∧ st.netDividends = [] ∧ st.monthlyDividendsBySymbol = []

theorem applyTx_noDiv (st : SimState) (tx : Tx) (h : noDividendActivity st) :
    noDividendActivity (applyTx st tx) := by
  obtain ⟨sym, ty, qty, price, fee⟩ := tx
  cases ty with
  | buy => exact h
  | sell =>
    simp only [applyTx]
    split
    · exact h
    · exact h

theorem applyPlan_noDiv (st : SimState) (p : PlanTx) (h : noDividendActivity st) :
    noDividendActivity (applyPlan st p) := by
  simp only [applyPlan]
  split
  · exact h
  · exact h

theorem reinvestStep_noDiv (prices : String → Option ℚ) (rfees : String → ℚ)
    (acc : SimState × ℚ) (t : String × ℚ) (h : noDividendActivity acc.1) :
    noDividendActivity (reinvestStep prices rfees acc t).1 := by
  rcases hp : prices t.1 with _ | price
  · simp only [reinvestStep, hp]
    exact h
  · simp only [reinvestStep, hp]
    split
    · exact h
    · exact h

theorem reinvestPass_noDiv (cfg : Config) (prices : String → Option ℚ)
    (st : SimState) (h : noDividendActivity st) :
    noDividendActivity (reinvestPass cfg prices st) := by
  simp only [reinvestPass]
  split
  · have hfold : noDividendActivity
        (cfg.targets.foldl (reinvestStep prices cfg.reinvestFees)
          (st, pooledTotal cfg st)).1 :=
      foldl_invariant (fun a => noDividendActivity a.1)
        (reinvestStep prices cfg.reinvestFees) cfg.targets
        (fun a b _ hp => reinvestStep_noDiv prices cfg.reinvestFees a b hp)
        (st, pooledTotal cfg st) h
    exact ⟨fun s => rfl, hfold.2⟩
  · exact h

theorem processDay_noDiv (cfg : Config) (st : SimState) (d : SimDay)
    (h : noDividendActivity st) : noDividendActivity (processDay cfg st d) := by
  have h1 : noDividendActivity (d.txs.foldl applyTx st) :=
    foldl_invariant noDividendActivity applyTx d.txs
      (fun a b _ hp => applyTx_noDiv a b hp) st h
  have h2 : noDividendActivity (d.plans.foldl applyPlan (d.txs.foldl applyTx st)) :=
    foldl_invariant noDividendActivity applyPlan d.plans
      (fun a b _ hp => applyPlan_noDiv a b hp) _ h1
  simp only [processDay]
  split <;> split <;>
    first
      | exact reinvestPass_noDiv cfg d.reinvestPrices _ ⟨fun s => h2.1 s, h2.2⟩
      | exact ⟨fun s => h2.1 s, h2.2⟩

/-- C9: run_simulation never posts a dividend: on every prefix of every
run from the initial state, every dividend buffer is exactly zero, the
dividend tax accumulator is zero, the gross and net dividend outputs and
the monthly-dividends-by-symbol output are empty, and the reinvestment
pooled total degenerates to the sum of the cash buffers alone. -/
theorem no_dividend_activity_ever (cfg : Config) (days : List SimDay) (k : ℕ) :
    (∀ s, (runDays cfg initState (days.take k)).dividendBuffers s = 0) ∧
    (runDays cfg initState (days.take k)).dividendTaxesPaid = 0 ∧
    (runDays cfg initState (days.take k)).grossDividends = [] ∧
    (runDays cfg initState (days.take k)).netDividends = [] ∧
    (runDays cfg initState (days.take k)).monthlyDividendsBySymbol = [] ∧
    pooledTotal cfg (runDays cfg initState (days.take k))
      = (cfg.symbols.map (runDays cfg initState (days.take k)).cashBuffers).sum := by
  have h : noDividendActivity (runDays cfg initState (days.take k)) :=
    foldl_invariant noDividendActivity (processDay cfg) (days.take k)
      (fun a b _ hp => processDay_noDiv cfg a b hp) initState
      ⟨fun _ => rfl, rfl, rfl, rfl, rfl⟩
  refine ⟨h.1, h.2.1, h.2.2.1, h.2.2.2.1, h.2.2.2.2, ?_⟩
  unfold pooledTotal
  refine congrArg List.sum (List.map_congr_left ?_)
  intro s _
  rw [h.1 s, zero_add]

theorem applyTx_meta (st : SimState) (tx : Tx) :
    (applyTx st tx).currentMonth = st.currentMonth ∧
    (applyTx st tx).triggered = st.triggered ∧
    reinvestCount (applyTx st tx) = reinvestCount st := by
  obtain ⟨sym, ty, qty, price, fee⟩ := tx
  cases ty with
  | buy =>
    refine ⟨rfl, rfl, ?_⟩
    simp [applyTx, reinvestCount, List.countP_append, List.countP_cons,
      TraceAction.isReinvest]
  | sell =>
    simp only [applyTx]
    split
    · refine ⟨rfl, rfl, ?_⟩
      simp [reinvestCount, List.countP_append, List.countP_cons, TraceAction.isReinvest]
    · exact ⟨rfl, rfl, rfl⟩

theorem applyPlan_meta (st : SimState) (p : PlanTx) :
    (applyPlan st p).currentMonth = st.currentMonth ∧
    (applyPlan st p).triggered = st.triggered ∧
    reinvestCount (applyPlan st p) = reinvestCount st := by
  simp only [applyPlan]
  split
  · refine ⟨rfl, rfl, ?_⟩
    simp [reinvestCount, List.countP_append, List.countP_cons, TraceAction.isReinvest]
  · exact ⟨rfl, rfl, rfl⟩

theorem foldTx_meta (l : List Tx) (st : SimState) :
    (l.foldl applyTx st).currentMonth = st.currentMonth ∧
    (l.foldl applyTx st).triggered = st.triggered ∧
    reinvestCount (l.foldl applyTx st) = reinvestCount st := by
  induction l generalizing st with
  | nil => exact ⟨rfl, rfl, rfl⟩
  | cons x t ih =>
    rw [List.foldl_cons]
    exact ⟨(ih _).1.trans (applyTx_meta st x).1,
      (ih _).2.1.trans (applyTx_meta st x).2.1,
      (ih _).2.2.trans (applyTx_meta st x).2.2⟩

theorem foldPlan_meta (l : List PlanTx) (st : SimState) :
    (l.foldl applyPlan st).currentMonth = st.currentMonth ∧
    (l.foldl applyPlan st).triggered = st.triggered ∧
    reinvestCount (l.foldl applyPlan st) = reinvestCount st := by
  induction l generalizing st with
  | nil => exact ⟨rfl, rfl, rfl⟩
  | cons x t ih =>
    rw [List.foldl_cons]
    exact ⟨(ih _).1.trans (applyPlan_meta st x).1,
      (ih _).2.1.trans (applyPlan_meta st x).2.1,
      (ih _).2.2.trans (applyPlan_meta st x).2.2⟩

theorem reinvestFold_meta (prices : String → Option ℚ) (rfees : String → ℚ)
    (targets : List (String × ℚ)) : ∀ acc : SimState × ℚ,
    ((targets.foldl (reinvestStep prices rfees) acc).1).triggered = (acc.1).triggered ∧
    ((targets.foldl (reinvestStep prices rfees) acc).1).currentMonth
      = (acc.1).currentMonth := by
  induction targets with
  | nil => exact fun acc => ⟨rfl, rfl⟩
  | cons t ts ih =>
    intro acc
    rw [List.foldl_cons]
    have hstep : ((reinvestStep prices rfees acc t).1).triggered = (acc.1).triggered ∧
        ((reinvestStep prices rfees acc t).1).currentMonth = (acc.1).currentMonth := by
      constructor <;>
        · rcases hp : prices t.1 with _ | price
          · simp only [reinvestStep, hp]
          · simp only [reinvestStep, hp]
            split <;> rfl
    exact ⟨(ih _).1.trans hstep.1, (ih _).2.trans hstep.2⟩

theorem reinvestPass_meta (cfg : Config) (prices : String → Option ℚ) (st : SimState) :
    (reinvestPass cfg prices st).triggered = st.triggered ∧
    (reinvestPass cfg prices st).currentMonth = st.currentMonth := by
  simp only [reinvestPass]
  split
  · exact ⟨(reinvestFold_meta prices cfg.reinvestFees cfg.targets _).1,
      (reinvestFold_meta prices cfg.reinvestFees cfg.targets _).2⟩
  · exact ⟨rfl, rfl⟩

theorem reinvestFold_cash_nonTarget (prices : String → Option ℚ) (rfees : String → ℚ)
    (targets : List (String × ℚ)) : ∀ (acc : SimState × ℚ) (s : String),
    s ∉ targets.map Prod.fst →
    ((targets.foldl (reinvestStep prices rfees) acc).1).cashBuffers s
      = (acc.1).cashBuffers s := by
  induction targets with
  | nil => exact fun acc s _ => rfl
  | cons t ts ih =>
    intro acc s hs
    have hs1 : s ≠ t.1 := fun he => hs (by simp [he])
    have hs2 : s ∉ ts.map Prod.fst := fun he => hs (by simp [he])
    rw [List.foldl_cons, ih _ s hs2]
    rcases hp : prices t.1 with _ | price
    · simp only [reinvestStep, hp]
    · simp only [reinvestStep, hp]
      split
      · simp only [Function.update_noteq hs1]
      · rfl

theorem runDays_cons (cfg : Config) (st : SimState) (d : SimDay) (ds : List SimDay) :
    runDays cfg st (d :: ds) = runDays cfg (processDay cfg st d) ds := rfl

theorem processDay_same_month_triggered (cfg : Config) (st : SimState) (d : SimDay)
    (ht : st.triggered = true) (hm : st.currentMonth = some d.month) :
    processDay cfg st d = d.plans.foldl applyPlan (d.txs.foldl applyTx st) := by
  have hcm : (d.plans.foldl applyPlan (d.txs.foldl applyTx st)).currentMonth
      = some d.month := by
    rw [(foldPlan_meta _ _).1, (foldTx_meta _ _).1, hm]
  have htr : (d.plans.foldl applyPlan (d.txs.foldl applyTx st)).triggered = true := by
    rw [(foldPlan_meta _ _).2.1, (foldTx_meta _ _).2.1, ht]
  simp only [processDay]
  rw [if_neg (show ¬ ((d.plans.foldl applyPlan (d.txs.foldl applyTx st)).currentMonth
      ≠ some d.month) by rw [hcm]; simp)]
  rw [if_neg (show ¬ ((d.plans.foldl applyPlan (d.txs.foldl applyTx st)).triggered
      = false ∧ 11 < d.dom) by rw [htr]; simp)]

theorem runDays_same_month_frozen (cfg : Config) (m : ℕ) (days : List SimDay)
    (hm : ∀ d ∈ days, d.month = m) : ∀ st : SimState, st.triggered = true →
    st.currentMonth = some m →
    reinvestCount (runDays cfg st days) = reinvestCount st ∧
    (runDays cfg st days).triggered = true ∧
    (runDays cfg st days).currentMonth = some m := by
  induction days with
  | nil => exact fun st ht hc => ⟨rfl, ht, hc⟩
  | cons d ds ih =>
    intro st ht hc
    have hdm : d.month = m := hm d (List.mem_cons_self _ _)
    have hstep : processDay cfg st d = d.plans.foldl applyPlan (d.txs.foldl applyTx st) :=
      processDay_same_month_triggered cfg st d ht (by rw [hc, hdm])
    have hthis : reinvestCount (processDay cfg st d) = reinvestCount st ∧
        (processDay cfg st d).triggered = true ∧
        (processDay cfg st d).currentMonth = some m := by
      rw [hstep]
      exact ⟨by rw [(foldPlan_meta _ _).2.2, (foldTx_meta _ _).2.2],
        by rw [(foldPlan_meta _ _).2.1, (foldTx_meta _ _).2.1, ht],
        by rw [(foldPlan_meta _ _).1, (foldTx_meta _ _).1, hc]⟩
    have hrest := ih (fun d2 h2 => hm d2 (List.mem_cons_of_mem _ h2))
      (processDay cfg st d) hthis.2.1 hthis.2.2
    rw [runDays_cons]
    exact ⟨hrest.1.trans hthis.1, hrest.2.1, hrest.2.2⟩

theorem processDay_count_increase_state (cfg : Config) (st : SimState) (d : SimDay)
    (h : reinvestCount st < reinvestCount (processDay cfg st d)) :
    (processDay cfg st d).triggered = true ∧
    (processDay cfg st d).currentMonth = some d.month := by
  have hc2 : reinvestCount (d.plans.foldl applyPlan (d.txs.foldl applyTx st))
      = reinvestCount st := by
    rw [(foldPlan_meta _ _).2.2, (foldTx_meta _ _).2.2]
  simp only [processDay] at h ⊢
  split at h
  · next hc1 =>
    rw [if_pos hc1]
    split at h
    · next hcond =>
      rw [if_pos hcond]
      exact ⟨(reinvestPass_meta cfg d.reinvestPrices _).1,
        (reinvestPass_meta cfg d.reinvestPrices _).2⟩
    · next hcond =>
      exact absurd h (not_lt.mpr (le_of_eq hc2))
  · next hc1 =>
    rw [if_neg hc1]
    split at h
    · next hcond =>
      rw [if_pos hcond]
      refine ⟨(reinvestPass_meta cfg d.reinvestPrices _).1, ?_⟩
      rw [(reinvestPass_meta cfg d.reinvestPrices _).2]
      exact not_not.mp hc1
    · next hcond =>
      exact absurd h (not_lt.mpr (le_of_eq hc2))

theorem processDay_reinvest_gating (cfg : Config) (st : SimState) (d : SimDay)
    (h : reinvestCount st < reinvestCount (processDay cfg st d)) :
    11 < d.dom ∧ (st.currentMonth ≠ some d.month ∨ st.triggered = false) ∧
    REINVESTMENT_THRESHOLD
      ≤ pooledTotal cfg (d.plans.foldl applyPlan (d.txs.foldl applyTx st)) := by
  have hc2 : reinvestCount (d.plans.foldl applyPlan (d.txs.foldl applyTx st))
      = reinvestCount st := by
    rw [(foldPlan_meta _ _).2.2, (foldTx_meta _ _).2.2]
  have hcm : (d.plans.foldl applyPlan (d.txs.foldl applyTx st)).currentMonth
      = st.currentMonth := by
    rw [(foldPlan_meta _ _).1, (foldTx_meta _ _).1]
  have htg : (d.plans.foldl applyPlan (d.txs.foldl applyTx st)).triggered
      = st.triggered := by
    rw [(foldPlan_meta _ _).2.1, (foldTx_meta _ _).2.1]
  simp only [processDay] at h
  split at h
  · next hc1 =>
    split at h
    · next hcond =>
      simp only [reinvestPass] at h
      split at h
      · next hthr =>
        exact ⟨hcond.2, Or.inl (by rw [← hcm]; exact hc1), hthr⟩
      · next hthr =>
        exact absurd h (not_lt.mpr (le_of_eq hc2))
    · next hcond =>
      exact absurd h (not_lt.mpr (le_of_eq hc2))
  · next hc1 =>
    split at h
    · next hcond =>
      simp only [reinvestPass] at h
      split at h
      · next hthr =>
        exact ⟨hcond.2, Or.inr (by rw [← htg]; exact hcond.1), hthr⟩
      · next hthr =>
        exact absurd h (not_lt.mpr (le_of_eq hc2))
    · next hcond =>
      exact absurd h (not_lt.mpr (le_of_eq hc2))

/-- C6: reinvestment gating and buffer reset.  (1) A pass with pooled
total below REINVESTMENT_THRESHOLD changes nothing.  (2) A triggered
pass (pooled total at or above the threshold) ends with every dividend
buffer exactly zero.  (3) Cash buffers are not globally reset: any
symbol outside the target queue keeps its cash buffer across a pass.
(4) A target that is purchased has its cash buffer set to exactly its
allocation remainder share_alloc − (qty × price + fee).  (5) If a day
adds any reinvestment purchase to the trace then its day-of-month
exceeds the cutoff 11, the month was not yet triggered for this state,
and the pooled total after that day's transactions and plan installments
meets the threshold.  (6) Within one calendar month (a day followed by
further days of the same month number) reinvestment purchases happen at
most once: after a day that added purchases, the remaining same-month
days add none. -/
theorem reinvestment_gating :
    (∀ (cfg : Config) (prices : String → Option ℚ) (st : SimState),
        pooledTotal cfg st < REINVESTMENT_THRESHOLD →
        reinvestPass cfg prices st = st) ∧
    (∀ (cfg : Config) (prices : String → Option ℚ) (st : SimState),
        REINVESTMENT_THRESHOLD ≤ pooledTotal cfg st →
        ∀ s, (reinvestPass cfg prices st).dividendBuffers s = 0) ∧
    (∀ (cfg : Config) (prices : String → Option ℚ) (st : SimState) (s : String),
        s ∉ cfg.targets.map Prod.fst →
        (reinvestPass cfg prices st).cashBuffers s = st.cashBuffers s) ∧
    (∀ (prices : String → Option ℚ) (rfees : String → ℚ) (acc : SimState × ℚ)
        (t : String × ℚ) (price : ℚ), prices t.1 = some price →
        0 < truncToZero ((acc.2 * t.2 - rfees t.1) / price) →
        (truncToZero ((acc.2 * t.2 - rfees t.1) / price) : ℚ) * price + rfees t.1
            < acc.2 * t.2 →
        ((reinvestStep prices rfees acc t).1).cashBuffers t.1
          = acc.2 * t.2
            - ((truncToZero ((acc.2 * t.2 - rfees t.1) / price) : ℚ) * price
                + rfees t.1)) ∧
    (∀ (cfg : Config) (st : SimState) (d : SimDay),
        reinvestCount st < reinvestCount (processDay cfg st d) →
        11 < d.dom ∧ (st.currentMonth ≠ some d.month ∨ st.triggered = false) ∧
        REINVESTMENT_THRESHOLD
          ≤ pooledTotal cfg (d.plans.foldl applyPlan (d.txs.foldl applyTx st))) ∧
    (∀ (cfg : Config) (st : SimState) (d : SimDay) (days : List SimDay) (m : ℕ),
        d.month = m → (∀ d2 ∈ days, d2.month = m) →
        reinvestCount st < reinvestCount (processDay cfg st d) →
        reinvestCount (runDays cfg (processDay cfg st d) days)
          = reinvestCount (processDay cfg st d)) := by
  refine ⟨?_, ?_, ?_, ?_, processDay_reinvest_gating, ?_⟩
  · intro cfg prices st hlt
    simp only [reinvestPass]
    rw [if_neg (not_le.mpr hlt)]
  · intro cfg prices st hge s
    simp only [reinvestPass]
    rw [if_pos hge]
  · intro cfg prices st s hs
    simp only [reinvestPass]
    split
    · exact reinvestFold_cash_nonTarget prices cfg.reinvestFees cfg.targets _ s hs
    · rfl
  · intro prices rfees acc t price hp hq hc
    simp only [reinvestStep, hp]
    rw [if_pos ⟨hq, hc⟩]
    simp only [Function.update_same]
  · intro cfg st d days m hdm hds hinc
    have hstate := processDay_count_increase_state cfg st d hinc
    exact (runDays_same_month_frozen cfg m days hds (processDay cfg st d)
      hstate.1 (by rw [hstate.2, hdm])).1

/-- Witness for reinvestment_gating: from the empty initial state the
pooled total 0 is below the threshold 250 and the pass is a no-op. -/
theorem reinvestment_gating_witness :
    pooledTotal exCfg initState < REINVESTMENT_THRESHOLD ∧
    reinvestPass exCfg (fun _ => none) initState = initState :=
  ⟨by norm_num [pooledTotal, exCfg, initState, REINVESTMENT_THRESHOLD],
   reinvestment_gating.1 exCfg (fun _ => none) initState
     (by norm_num [pooledTotal, exCfg, initState, REINVESTMENT_THRESHOLD])⟩

theorem sum_map_update (l : List String) (f : String → ℚ) (a : String) (v : ℚ)
    (ha : a ∈ l) (hl : l.Nodup) :
    (l.map (Function.update f a v)).sum = (l.map f).sum - f a + v := by
  induction l with
  | nil => cases ha
  | cons b t ih =>
    rcases List.mem_cons.mp ha with hb | ht
    · subst hb
      have hnotin : a ∉ t := (List.nodup_cons.mp hl).1
      have hmap : t.map (Function.update f a v) = t.map f := by
        refine List.map_congr_left ?_
        intro s hs
        rw [Function.update_apply, if_neg (fun (he : s = a) => hnotin (he ▸ hs))]
      rw [List.map_cons, List.map_cons, List.sum_cons, List.sum_cons,
        Function.update_same, hmap]
      ring
    · have hba : b ≠ a := fun he => (List.nodup_cons.mp hl).1 (he ▸ ht)
      rw [List.map_cons, List.map_cons, List.sum_cons, List.sum_cons,
        Function.update_apply, if_neg hba, ih ht (List.nodup_cons.mp hl).2]
      ring

theorem sum_map_zero (l : List String) : (l.map (fun _ => (0:ℚ))).sum = 0 := by
  induction l with
  | nil => rfl
  | cons b t ih => rw [List.map_cons, List.sum_cons, ih, add_zero]

/-- The cash-conservation equation of the claim, with the
specification-only accumulators of SimState giving meaning to its terms:
the pooled buffers plus the capital invested into purchases equal the
cash contributed from outside minus the cash withdrawn (deployedCash,
which no operation of run_simulation ever increments). -/
def conserved (cfg : Config) (st : SimState) : Prop :=
  (cfg.symbols.map st.cashBuffers).sum + (cfg.symbols.map st.dividendBuffers).sum
    + st.investedCapital = st.contributedCash - st.deployedCash

theorem applyTx_conserved (cfg : Config) (st : SimState) (tx : Tx)
    (h : conserved cfg st) : conserved cfg (applyTx st tx) := by
  obtain ⟨sym, ty, qty, price, fee⟩ := tx
  cases ty with
  | buy =>
    unfold conserved at h ⊢
    simp only [applyTx]
    linarith [h]
  | sell =>
    unfold conserved at h ⊢
    simp only [applyTx]
    split
    · exact h
    · exact h

theorem applyPlan_conserved (cfg : Config) (st : SimState) (p : PlanTx)
    (hmem : p.sym ∈ cfg.symbols) (hnd : cfg.symbols.Nodup)
    (h : conserved cfg st) : conserved cfg (applyPlan st p) := by
  unfold conserved at h ⊢
  simp only [applyPlan]
  split
  · rw [sum_map_update cfg.symbols st.cashBuffers p.sym _ hmem hnd]
    linarith [h]
  · exact h

theorem initState_conserved (cfg : Config) : conserved cfg initState := by
  unfold conserved
  simp [initState]

/-- A two-symbol configuration whose single reinvestment target A takes
the whole pool (weight 1), with reinvestment fee 5. -/
def cfgC5 : Config :=
  { symbols := ["A", "B"], targets := [("A", 1)], reinvestFees := fun _ => 5 }

/-- Day 1 (July 5): one plan installment of 360 with fee 10 at price 200
for each of A and B, leaving 150 in each cash buffer. -/
def dayC5plan : SimDay :=
  { year := 2025, month := 7, dom := 5, txs := [],
    plans := [{ sym := "A", amount := 360, fee := 10, price := 200 },
              { sym := "B", amount := 360, fee := 10, price := 200 }],
    reinvestPrices := fun _ => none }

/-- Day 2 (July 12): no transactions; the reinvestment pass runs with A
priced at 200. -/
def dayC5reinvest : SimDay :=
  { year := 2025, month := 7, dom := 12, txs := [], plans := [],
    reinvestPrices := fun s => if s = "A" then some 200 else none }

/-- The ledger state after day 1 of the conservation scenario. -/
def stateC5afterPlans : SimState :=
  { held := Function.update (Function.update (fun _ => 0) "A" 1) "B" 1
    avgPrice := Function.update (Function.update (fun _ => 0) "A" 200) "B" 200
    cashBuffers := Function.update (Function.update (fun _ => 0) "A" 150) "B" 150
    dividendBuffers := fun _ => 0
    realizedGains := fun _ => 0
    contributions := 400
    fees := 20
    reinvested := 0
    statRealized := 0
    actions := [TraceAction.planBuy "A" 1 200, TraceAction.planBuy "B" 1 200]
    currentMonth := some 7
    triggered := false
    contributedCash := 720
    investedCapital := 420
    deployedCash := 0
    dividendTaxesPaid := 0
    grossDividends := []
    netDividends := []
    monthlyDividendsBySymbol := [] }

/-- The ledger state after day 2: the pass allocates the whole 300 pool
to A, buys 1 share for 205 and overwrites A's buffer with the remainder
95, while B keeps its 150. -/
def stateC5afterReinvest : SimState :=
  { held := Function.update
      (Function.update (Function.update (fun _ => 0) "A" 1) "B" 1) "A" 2
    avgPrice := Function.update
      (Function.update (Function.update (fun _ => 0) "A" 200) "B" 200) "A" 200
    cashBuffers := Function.update
      (Function.update (Function.update (fun _ => 0) "A" 150) "B" 150) "A" 95
    dividendBuffers := fun _ => 0
    realizedGains := fun _ => 0
    contributions := 400
    fees := 25
    reinvested := 205
    statRealized := 0
    actions := [TraceAction.planBuy "A" 1 200, TraceAction.planBuy "B" 1 200,
      TraceAction.reinvest "A" 1 200]
    currentMonth := some 7
    triggered := true
    contributedCash := 720
    investedCapital := 625
    deployedCash := 0
    dividendTaxesPaid := 0
    grossDividends := []
    netDividends := []
    monthlyDividendsBySymbol := [] }

theorem stageC5a : processDay cfgC5 initState dayC5plan = stateC5afterPlans := by
  simp [processDay, applyPlan, applyTx, reinvestPass, reinvestStep, pooledTotal,
    cfgC5, dayC5plan, initState, stateC5afterPlans, REINVESTMENT_THRESHOLD,
    Function.update_apply]
  norm_num [truncToZero]
  simp [reduceCtorEq]

theorem stageC5b :
    processDay cfgC5 stateC5afterPlans dayC5reinvest = stateC5afterReinvest := by
  simp [processDay, applyPlan, applyTx, reinvestPass, reinvestStep, pooledTotal,
    cfgC5, dayC5reinvest, stateC5afterPlans, stateC5afterReinvest,
    REINVESTMENT_THRESHOLD, Function.update_apply]
  norm_num [truncToZero]

/-- Counterexample to C5: in a reachable run (two plan installments on
day 1, a reinvestment pass on day 2) the conservation equation of the
claim holds after day 1 and is violated after the reinvestment pass,
because the pass allocates the whole pool (including B's 150 buffer) to
target A yet overwrites only A's buffer with the remainder: buffers
245 plus invested 625 no longer equal contributed 720. -/
theorem cash_conservation_cex :
    conserved cfgC5 (runDays cfgC5 initState [dayC5plan]) ∧
    ¬ conserved cfgC5 (runDays cfgC5 initState [dayC5plan, dayC5reinvest]) := by
  have h1 : runDays cfgC5 initState [dayC5plan] = stateC5afterPlans := stageC5a
  have h2 : runDays cfgC5 initState [dayC5plan, dayC5reinvest]
      = stateC5afterReinvest := by
    show processDay cfgC5 (processDay cfgC5 initState dayC5plan) dayC5reinvest
      = stateC5afterReinvest
    rw [stageC5a]
    exact stageC5b
  rw [h1, h2]
  constructor
  · norm_num [conserved, cfgC5, stateC5afterPlans, Function.update_apply]
  · norm_num [conserved, cfgC5, stateC5afterReinvest, Function.update_apply]
    simp
    norm_num

/-- C5 amended: with contributedCash, investedCapital and deployedCash
as defined on SimState, the conservation equation (sum of cash and
dividend buffers plus invested capital equals contributed minus deployed
cash) holds initially and is preserved by every ordinary transaction
(buy or sell) and by every plan installment whose symbol belongs to the
duplicate-free symbol universe; the reinvestment pass does not preserve
it (see the counterexample). -/
theorem cash_conservation_ops (cfg : Config) :
    conserved cfg initState ∧
    (∀ (st : SimState) (tx : Tx), conserved cfg st → conserved cfg (applyTx st tx)) ∧
    (∀ (st : SimState) (p : PlanTx), p.sym ∈ cfg.symbols → cfg.symbols.Nodup →
        conserved cfg st → conserved cfg (applyPlan st p)) :=
  ⟨initState_conserved cfg, applyTx_conserved cfg, applyPlan_conserved cfg⟩

/-- A plan installment for symbol A used in the conservation witness. -/
def planW : PlanTx := { sym := "A", amount := 360, fee := 10, price := 200 }

/-- Witness for cash_conservation_ops: the plan-installment branch at a
concrete input. -/
theorem cash_conservation_ops_witness :
    planW.sym ∈ cfgC5.symbols ∧ cfgC5.symbols.Nodup ∧
    conserved cfgC5 initState ∧
    conserved cfgC5 (applyPlan initState planW) :=
  ⟨by simp [planW, cfgC5], by simp [cfgC5],
   (cash_conservation_ops cfgC5).1,
   (cash_conservation_ops cfgC5).2.2 initState planW (by simp [planW, cfgC5])
     (by simp [cfgC5]) ((cash_conservation_ops cfgC5).1)⟩
